import Mathlib

/-!
Shallow embedding of src/BufferStream.js: a growable binary cursor over an
ArrayBuffer heap.  Buffers are identified by indices into a `Store` (a list of
byte lists), mirroring the fact that JavaScript `ArrayBuffer`s are heap objects
referenced by the stream's `buffer` field; `checkSize`, `more` and the grow
branch of `concat` allocate fresh buffers, exactly as `new ArrayBuffer(...)` /
`slice` do in the source.

Numeric conventions: JavaScript numbers reaching the byte layer are modelled as
`Int`; 32/64-bit floats are identified with their IEEE-754 bit patterns (the
spec's float round-trip property is "bit-exact"), so `writeFloat`/`readFloat`
move the 4/8 pattern bytes without modelling IEEE arithmetic.  The JS string
builtins `Number(...)` / `parseInt` / `parseFloat` are modelled for optionally
signed decimal integer literals (with surrounding whitespace); `none` plays the
role of NaN as a parse result.
-/

namespace BufferStreamModel

/-- Contents of one ArrayBuffer: a list of byte values. -/
abbrev Bytes := List Nat

/-- The ArrayBuffer heap: buffer number `i` holds `store.getD i []`. -/
abbrev Store := List Bytes

/-- A JavaScript value as it may be passed to the numeric writers. -/
inductive JSVal where
  | num (v : Int)
  | str (s : String)
  | nullv
  | boolv (b : Bool)
  | undef
  | nan

deriving instance DecidableEq for JSVal

/-- Value of a list of decimal digit characters, most significant first. -/
def digitsVal (cs : List Char) : Nat :=
  cs.foldl (fun a c => a * 10 + (c.toNat - 48)) 0

/-- Whitespace stripped from both ends of a character list (the trimming JS
`Number(string)` performs). -/
def trimChars (cs : List Char) : List Char :=
  ((cs.dropWhile Char.isWhitespace).reverse.dropWhile Char.isWhitespace).reverse

/-- JS `Number(string)` conversion (used by `isNaN`), modelled for optionally
signed decimal integer literals; the empty / all-whitespace string converts
to 0, anything unparsed is NaN (`none`). -/
def strNumber? (s : String) : Option Int :=
  let cs := trimChars s.toList
  if cs.isEmpty then some 0
  else
    match cs with
    | '-' :: rest =>
      if !rest.isEmpty && rest.all Char.isDigit then some (-(digitsVal rest : Int)) else none
    | '+' :: rest =>
      if !rest.isEmpty && rest.all Char.isDigit then some ((digitsVal rest : Int)) else none
    | _ =>
      if cs.all Char.isDigit then some ((digitsVal cs : Int)) else none

/-- JS `parseInt(string)` modelled for decimal input: skip leading whitespace,
optional sign, then the longest digit prefix; NaN (`none`) when there is no
digit. -/
def parseInt? (s : String) : Option Int :=
  let cs := s.toList.dropWhile Char.isWhitespace
  let core : List Char → Option Int := fun ds0 =>
    let ds := ds0.takeWhile Char.isDigit
    if ds.isEmpty then none else some ((digitsVal ds : Int))
  match cs with
  | '-' :: rest => (core rest).map (fun n => -n)
  | '+' :: rest => core rest
  | _ => core cs

/-- JS `parseFloat(string)`, coinciding with `parseInt` on the decimal integer
fragment modelled here. -/
def parseFloat? (s : String) : Option Int := parseInt? s

/-- JS `ToNumber` on the modelled values; `none` is NaN.  `isNaN(v)` in the
source is `(jsNumber? v).isNone` here. -/
def jsNumber? : JSVal → Option Int
  | .num v => some v
  | .str s => strNumber? s
  | .nullv => some 0
  | .boolv b => some (if b then 1 else 0)
  | .undef => none
  | .nan => none

/-- JS string conversion used when building the thrown error message. -/
def jsDisplay : JSVal → String
  | .num v => toString v
  | .str s => s
  | .nullv => "null"
  | .boolv b => if b then "true" else "false"
  | .undef => "undefined"
  | .nan => "NaN"

/-- `toInt` from the source: throw when `isNaN(val)`, parse strings with
`parseInt` (whose result may itself be NaN, e.g. on the empty string), pass
every other value through unchanged. -/
def toInt (val : JSVal) : Except String JSVal :=
  if (jsNumber? val).isNone then
    .error ("Not a number: " ++ jsDisplay val)
  else
    match val with
    | .str s =>
      match parseInt? s with
      | some n => .ok (.num n)
      | none => .ok .nan
    | v => .ok v

/-- `toFloat` from the source: like `toInt` but parsing with `parseFloat`. -/
def toFloat (val : JSVal) : Except String JSVal :=
  if (jsNumber? val).isNone then
    .error ("Not a number: " ++ jsDisplay val)
  else
    match val with
    | .str s =>
      match parseFloat? s with
      | some n => .ok (.num n)
      | none => .ok .nan
    | v => .ok v

/-- The numeric value a `DataView` setter stores for the given JS value:
`ToNumber` with NaN collapsing to 0 (so `.nan`, `null`, `false` store 0). -/
def storeNum (v : JSVal) : Int := (jsNumber? v).getD 0

/-- The cursor state: `buffer` is a reference into the `Store`. -/
structure Cursor where
  buffer : Nat
  offset : Nat
  size : Nat
  isLittleEndian : Bool

deriving instance DecidableEq for Cursor

/-- Dereference a buffer. -/
def getBuf (s : Store) (i : Nat) : Bytes := s.getD i []

/-- Overwrite the contents of buffer `i`. -/
def setBuf (s : Store) (i : Nat) (b : Bytes) : Store := s.set i b

/-- Overwrite `bs.length` bytes of `buf` starting at `off` (the per-byte
`view.setUint8` loop; out-of-range positions are dropped, a situation the
source never reaches because `checkSize` runs first). -/
def setBytes : Bytes → Nat → Bytes → Bytes
  | buf, _, [] => buf
  | buf, off, b :: bs => setBytes (buf.set off b) (off + 1) bs

/-- Little-endian byte decomposition of a value into `w` bytes. -/
def encLE : Nat → Nat → Bytes
  | 0, _ => []
  | w + 1, v => v % 256 :: encLE w (v / 256)

/-- Recompose bytes, least significant first. -/
def decLE : Bytes → Nat
  | [] => 0
  | b :: bs => b + 256 * decLE bs

/-- The byte image a `DataView` setter lays down for value `v` of width `w`
under byte order `le` (big-endian is the reversed little-endian image). -/
def encBytes (w : Nat) (v : Nat) (le : Bool) : Bytes :=
  if le then encLE w v else (encLE w v).reverse

/-- The `w` bytes of `buf` starting at `off` (shorter when out of range). -/
def extractBytes (buf : Bytes) (off len : Nat) : Bytes :=
  (buf.drop off).take len

/-- `DataView.getUint<8w>` at `off` under byte order `le`.  The source performs
no bounds check before reads (spec sections 4.2 and 7 call reads past capacity
undefined); the model totalizes the out-of-range case by decoding the bytes
that exist, a case no theorem below exercises. -/
def getUintAt (w : Nat) (le : Bool) (buf : Bytes) (off : Nat) : Nat :=
  let bs := extractBytes buf off w
  decLE (if le then bs else bs.reverse)

/-- Two's complement store image of the integer `v` in `w` bytes. -/
def intBytes (w : Nat) (v : Int) : Nat := (v % ((256 : Int) ^ w)).toNat

/-- `checkSize` from the source: when `offset + step` exceeds the capacity,
allocate a fresh buffer of exactly that size, copy the old bytes to position 0
(the fresh ArrayBuffer is zero-filled) and repoint the cursor at it. -/
def checkSize (step : Nat) (s : Store) (c : Cursor) : Store × Cursor :=
  let buf := getBuf s c.buffer
  if c.offset + step > buf.length then
    let dst := buf ++ List.replicate (c.offset + step - buf.length) 0
    (s ++ [dst], { c with buffer := s.length })
  else (s, c)

/-- `increment` from the source: advance `offset` by `step`, raise `size` to
the new offset when it has been passed, and return `step`. -/
def increment (step : Nat) (c : Cursor) : Nat × Cursor :=
  let off := c.offset + step
  (step, { c with offset := off, size := if off > c.size then off else c.size })

/-- Shared body of every fixed-width numeric writer: `checkSize`, then either
surface the coercion failure (after `checkSize` has already run, as in the
source, where `toInt` is evaluated inside the `view.set...` call) or store the
coerced value's bytes at the old offset under the configured byte order and
`increment`. -/
def writeCoerced (w : Nat) (coerced : Except String JSVal) (s : Store) (c : Cursor) :
    Store × Cursor × Except String Nat :=
  let p := checkSize w s c
  match coerced with
  | .error e => (p.1, p.2, .error e)
  | .ok jv =>
    let buf := getBuf p.1 p.2.buffer
    let s2 := setBuf p.1 p.2.buffer
      (setBytes buf p.2.offset (encBytes w (intBytes w (storeNum jv)) p.2.isLittleEndian))
    let r := increment w p.2
    (s2, r.2, .ok r.1)

/-- Common body of the fixed-width integer writers `writeUint8` .. `writeInt32`:
coerce with `toInt`, then the shared writing path. -/
def writeIntWidth (w : Nat) (val : JSVal) : Store → Cursor → Store × Cursor × Except String Nat :=
  writeCoerced w (toInt val)

def writeUint8 : JSVal → Store → Cursor → Store × Cursor × Except String Nat :=
  writeIntWidth 1

def writeInt8 : JSVal → Store → Cursor → Store × Cursor × Except String Nat :=
  writeIntWidth 1

def writeUint16 : JSVal → Store → Cursor → Store × Cursor × Except String Nat :=
  writeIntWidth 2

def writeInt16 : JSVal → Store → Cursor → Store × Cursor × Except String Nat :=
  writeIntWidth 2

def writeUint32 : JSVal → Store → Cursor → Store × Cursor × Except String Nat :=
  writeIntWidth 4

def writeInt32 : JSVal → Store → Cursor → Store × Cursor × Except String Nat :=
  writeIntWidth 4

/-- Common body of `writeFloat` / `writeDouble`: as the integer writers but
coercing with `toFloat`; the stored number stands for its IEEE bit pattern. -/
def writeFloatWidth (w : Nat) (val : JSVal) : Store → Cursor → Store × Cursor × Except String Nat :=
  writeCoerced w (toFloat val)

def writeFloat : JSVal → Store → Cursor → Store × Cursor × Except String Nat :=
  writeFloatWidth 4

def writeDouble : JSVal → Store → Cursor → Store × Cursor × Except String Nat :=
  writeFloatWidth 8

/-- `readUint8`: `view.getUint8` (no byte-order argument), then `increment 1`. -/
def readUint8 (s : Store) (c : Cursor) : Nat × Cursor :=
  let val := decLE (extractBytes (getBuf s c.buffer) c.offset 1)
  (val, (increment 1 c).2)

def readUint16 (s : Store) (c : Cursor) : Nat × Cursor :=
  let val := getUintAt 2 c.isLittleEndian (getBuf s c.buffer) c.offset
  (val, (increment 2 c).2)

def readUint32 (s : Store) (c : Cursor) : Nat × Cursor :=
  let val := getUintAt 4 c.isLittleEndian (getBuf s c.buffer) c.offset
  (val, (increment 4 c).2)

def readInt16 (s : Store) (c : Cursor) : Int × Cursor :=
  let u := getUintAt 2 c.isLittleEndian (getBuf s c.buffer) c.offset
  let val : Int := if u < 32768 then (u : Int) else (u : Int) - 65536
  (val, (increment 2 c).2)

def readInt32 (s : Store) (c : Cursor) : Int × Cursor :=
  let u := getUintAt 4 c.isLittleEndian (getBuf s c.buffer) c.offset
  let val : Int := if u < 2147483648 then (u : Int) else (u : Int) - 4294967296
  (val, (increment 4 c).2)

/-- `readFloat`: the 4 bytes at the offset as an IEEE-754 bit pattern. -/
def readFloat (s : Store) (c : Cursor) : Nat × Cursor :=
  let val := getUintAt 4 c.isLittleEndian (getBuf s c.buffer) c.offset
  (val, (increment 4 c).2)

/-- `readDouble`: the 8 bytes at the offset as an IEEE-754 bit pattern. -/
def readDouble (s : Store) (c : Cursor) : Nat × Cursor :=
  let val := getUintAt 8 c.isLittleEndian (getBuf s c.buffer) c.offset
  (val, (increment 8 c).2)

/-- `readUint8Array(length)`: a view on the `length` bytes at the offset,
then `increment length`. -/
def readUint8Array (len : Nat) (s : Store) (c : Cursor) : Bytes × Cursor :=
  (extractBytes (getBuf s c.buffer) c.offset len, (increment len c).2)

/-- The `while (i++ < sixlen)` loop of `readUint16Array`, transcribed with its
post-increment: each iteration stores the word decoded at the current offset
into slot `i + 1` (a store into slot `sixlen` is silently dropped by the typed
array, as `List.set` drops it here) and advances the raw offset by 2. -/
def readUint16ArrayLoop (buf : Bytes) (le : Bool) :
    Nat → Nat → Nat → List Nat → List Nat × Nat
  | 0, off, _, arr => (arr, off)
  | r + 1, off, i, arr =>
    readUint16ArrayLoop buf le r (off + 2) (i + 1)
      (arr.set (i + 1) (getUintAt 2 le buf off % 65536))

/-- `readUint16Array(length)`: `length / 2` iterations over a zero-initialised
array, bumping `this.offset` directly (not via `increment`, so `size` is not
touched). -/
def readUint16Array (len : Nat) (s : Store) (c : Cursor) : List Nat × Cursor :=
  let sixlen := len / 2
  let p := readUint16ArrayLoop (getBuf s c.buffer) c.isLittleEndian sixlen c.offset 0
    (List.replicate sixlen 0)
  (p.1, { c with offset := p.2 })

/-- JS `Number.prototype.toString(16)`: lowercase hex digits of `n`, without
zero padding ("0" for 0). -/
def hexStr (n : Nat) : String := (Nat.toDigits 16 n).asString

/-- The accumulation loop of `readHex`: `length` successive `readUint8` calls,
appending each byte's unpadded hex rendering. -/
def readHexLoop (s : Store) : Nat → Cursor → String → String × Cursor
  | 0, c, acc => (acc, c)
  | n + 1, c, acc =>
    let p := readUint8 s c
    readHexLoop s n p.2 (acc ++ hexStr p.1)

def readHex (len : Nat) (s : Store) (c : Cursor) : String × Cursor :=
  readHexLoop s len c ""

/-- Value of one hex digit character, `none` when `parseInt(ch, 16)` is NaN. -/
def hexDigit? (ch : Char) : Option Nat :=
  if '0' ≤ ch ∧ ch ≤ '9' then some (ch.toNat - 48)
  else if 'a' ≤ ch ∧ ch ≤ 'f' then some (ch.toNat - 87)
  else if 'A' ≤ ch ∧ ch ≤ 'F' then some (ch.toNat - 55)
  else none

/-- Bytes produced by the `writeHex` digit loop: two digits form one byte as
`(code << 4) | nextCode` (a NaN digit behaves as 0, via `ToInt32`); a lone
trailing digit is written raw, as in the `nextCode === null` branch. -/
def writeHexPairs : List Char → List Nat
  | [] => []
  | [a] => [(hexDigit? a).getD 0]
  | a :: b :: rest =>
    ((((hexDigit? a).getD 0) <<< 4) ||| ((hexDigit? b).getD 0)) :: writeHexPairs rest

/-- `writeHex(value)`: reserve `value.length / 2` bytes, store the decoded
pairs at the old offset, `increment` by that byte count.  The source computes
`len / 2` with float division; the model uses `Nat` division, which agrees on
the even-length inputs the spec's properties use. -/
def writeHex (value : String) (s : Store) (c : Cursor) : Store × Cursor × Nat :=
  let blen := value.length / 2
  let p := checkSize blen s c
  let buf := getBuf p.1 p.2.buffer
  let s2 := setBuf p.1 p.2.buffer (setBytes buf p.2.offset (writeHexPairs value.toList))
  let r := increment blen p.2
  (s2, r.2, r.1)

/-- JS `ArrayBuffer.slice(st, en)` for non-negative clamped indices. -/
def jsSlice (buf : Bytes) (st en : Nat) : Bytes := (buf.take en).drop st

/-- `getBuffer(start, end)` with JS falsy defaulting: when both arguments are
absent or 0 the region is `[0, size)`, otherwise `slice(start, end)` with an
absent `end` meaning the capacity. -/
def getBuffer (s : Store) (c : Cursor) (st? en? : Option Nat) : Bytes :=
  let buf := getBuf s c.buffer
  if (st?.getD 0 == 0) && (en?.getD 0 == 0) then
    jsSlice buf 0 c.size
  else
    jsSlice buf (st?.getD 0) (en?.getD buf.length)

/-- `more(length)`: underrun check against the capacity, then a fresh buffer
holding `slice(offset, offset + length)` wrapped in a `ReadBufferStream`
(offset 0, big-endian default, size = its byte length), the parent advancing
via `increment`. -/
def more (len : Nat) (s : Store) (c : Cursor) : Store × Cursor × Except String Cursor :=
  let buf := getBuf s c.buffer
  if c.offset + len > buf.length then
    (s, c, .error "Request more than currently allocated buffer")
  else
    let nb := jsSlice buf c.offset (c.offset + len)
    let c2 := (increment len c).2
    (s ++ [nb], c2, .ok { buffer := s.length, offset := 0, size := nb.length, isLittleEndian := false })

/-- `reset()`: rewind the offset. -/
def reset (c : Cursor) : Cursor := { c with offset := 0 }

/-- The constructor argument: a number, a buffer, or something falsy. -/
inductive SizeOrBuffer where
  | size (n : Nat)
  | buf (b : Bytes)
  | nullish

/-- The buffer the `BufferStream` constructor ends up owning: a zero-filled
buffer for a numeric argument, the supplied buffer otherwise, and a fresh
zero-length buffer when the argument is falsy. -/
def ctorBytes : SizeOrBuffer → Bytes
  | .size n => List.replicate n 0
  | .buf b => b
  | .nullish => []

/-- The `BufferStream` base constructor: allocate the owned buffer, offset 0,
size 0, byte order from the flag (`littleEndian || false`). -/
def mkBufferStream (a : SizeOrBuffer) (le : Bool) (s : Store) : Store × Cursor :=
  (s ++ [ctorBytes a], { buffer := s.length, offset := 0, size := 0, isLittleEndian := le })

/-- `ReadBufferStream`: the base constructor, then `size := byteLength`. -/
def mkReadBufferStream (a : SizeOrBuffer) (le : Bool) (s : Store) : Store × Cursor :=
  let p := mkBufferStream a le s
  (p.1, { p.2 with size := (getBuf p.1 p.2.buffer).length })

/-- `WriteBufferStream`: the base constructor, then `size := 0`. -/
def mkWriteBufferStream (a : SizeOrBuffer) (le : Bool) (s : Store) : Store × Cursor :=
  let p := mkBufferStream a le s
  (p.1, { p.2 with size := 0 })

/-- `concat(stream)`: with enough room, copy the other stream's logical
content `[0, other.size)` in place at the offset; otherwise allocate an
exact-fit buffer, copy `getBuffer(0, offset)` then the other content.  Both
branches then set `offset += other.size` and `size = offset` and return the
new capacity. -/
def concat (s : Store) (c : Cursor) (other : Cursor) : Store × Cursor × Nat :=
  let buf := getBuf s c.buffer
  let available : Int := (buf.length : Int) - (c.offset : Int)
  let part2 := getBuffer s other (some 0) (some other.size)
  if (other.size : Int) > available then
    let part1 := getBuffer s c (some 0) (some c.offset)
    let newbuf := setBytes (setBytes (List.replicate (c.offset + other.size) 0) 0 part1)
      c.offset part2
    let c2 := { c with buffer := s.length, offset := c.offset + other.size,
                       size := c.offset + other.size }
    (s ++ [newbuf], c2, newbuf.length)
  else
    let s2 := setBuf s c.buffer (setBytes buf c.offset part2)
    let c2 := { c with offset := c.offset + other.size, size := c.offset + other.size }
    (s2, c2, (setBytes buf c.offset part2).length)

/-- The eight fixed-width numeric types of spec section 4.1. -/
inductive NumTy where
  | u8 | i8 | u16 | i16 | u32 | i32 | f32 | f64

deriving instance DecidableEq for NumTy

/-- Byte width of each numeric type. -/
def width : NumTy → Nat
  | .u8 => 1
  | .i8 => 1
  | .u16 => 2
  | .i16 => 2
  | .u32 => 4
  | .i32 => 4
  | .f32 => 4
  | .f64 => 8

/-- Dispatch to the type's write operation (floats take the bit pattern). -/
def writeNum : NumTy → Int → Store → Cursor → Store × Cursor × Except String Nat
  | .u8, v => writeUint8 (.num v)
  | .i8, v => writeInt8 (.num v)
  | .u16, v => writeUint16 (.num v)
  | .i16, v => writeInt16 (.num v)
  | .u32, v => writeUint32 (.num v)
  | .i32, v => writeInt32 (.num v)
  | .f32, v => writeFloat (.num v)
  | .f64, v => writeDouble (.num v)

/-- Dispatch to the type's read operation.  The source has no `readInt8`;
`readUint8` is its only 8-bit read, so that is what the `i8` row can use. -/
def readNum : NumTy → Store → Cursor → Int × Cursor
  | .u8, s, c => let p := readUint8 s c; ((p.1 : Int), p.2)
  | .i8, s, c => let p := readUint8 s c; ((p.1 : Int), p.2)
  | .u16, s, c => let p := readUint16 s c; ((p.1 : Int), p.2)
  | .i16, s, c => readInt16 s c
  | .u32, s, c => let p := readUint32 s c; ((p.1 : Int), p.2)
  | .i32, s, c => readInt32 s c
  | .f32, s, c => let p := readFloat s c; ((p.1 : Int), p.2)
  | .f64, s, c => let p := readDouble s c; ((p.1 : Int), p.2)

/-- The representable range of each type (bit patterns for the floats). -/
def inRange : NumTy → Int → Prop
  | .u8, v => 0 ≤ v ∧ v < 256
  | .i8, v => -128 ≤ v ∧ v < 128
  | .u16, v => 0 ≤ v ∧ v < 65536
  | .i16, v => -32768 ≤ v ∧ v < 32768
  | .u32, v => 0 ≤ v ∧ v < 4294967296
  | .i32, v => -2147483648 ≤ v ∧ v < 2147483648
  | .f32, v => 0 ≤ v ∧ v < 4294967296
  | .f64, v => 0 ≤ v ∧ v < 18446744073709551616

/-- Round-trip scenario of spec section 8: a fresh write cursor from a null
buffer under byte order `le`, write `v` with type `t` at offset 0, rewind with
`reset`, read type `t` back from offset 0. -/
def roundTrip (t : NumTy) (le : Bool) (v : Int) : Int :=
  let p0 := mkWriteBufferStream .nullish le []
  let p1 := writeNum t v p0.1 p0.2
  (readNum t p1.1 (reset p1.2.1)).1

/-- The growth scenario of spec section 8: byte 0xAA then byte 0xBB written
into a zero-capacity write cursor, read back as a 2-byte sequence. -/
def growScenario : Bytes :=
  let p0 := mkWriteBufferStream .nullish false []
  let p1 := writeUint8 (.num 170) p0.1 p0.2
  let p2 := writeUint8 (.num 187) p1.1 p1.2.1
  (readUint8Array 2 p2.1 (reset p2.2.1)).1

/-- Expected rendering of `readHex`: each byte of the region converted with
the unpadded lowercase `hexStr`, concatenated in order. -/
def hexOfBytes (buf : Bytes) (off : Nat) : Nat → String
  | 0 => ""
  | n + 1 => hexStr (buf.getD off 0) ++ hexOfBytes buf (off + 1) n

/-- Hex round-trip scenario of spec section 8: write the hex string "1a2b"
into a fresh write cursor, rewind, read 2 bytes back as hex. -/
def hexRoundTrip : String :=
  let p0 := mkWriteBufferStream .nullish false []
  let p1 := writeHex "1a2b" p0.1 p0.2
  (readHex 2 p1.1 (reset p1.2.1)).1

/-- Concat scenario refuting the size-advance reading: five bytes are written
(size 5), the cursor is `reset` to offset 0, and a 3-byte read cursor is
concatenated in place. -/
def concatShrink : Store × Cursor × Nat :=
  let p0 := mkWriteBufferStream .nullish false []
  let p1 := writeHex "0102030405" p0.1 p0.2
  let q0 := mkReadBufferStream (.buf [9, 8, 7]) false p1.1
  concat q0.1 (reset p1.2.1) q0.2

/-! ### Buffer and store lemmas -/

theorem length_setBytes (bs : Bytes) : ∀ (buf : Bytes) (off : Nat),
    (setBytes buf off bs).length = buf.length := by
  induction bs with
  | nil => intro buf off; rfl
  | cons b t ih =>
    intro buf off
    simp only [setBytes]
    rw [ih, List.length_set]

theorem getElem?_setBytes_lt (bs : Bytes) : ∀ (buf : Bytes) (off i : Nat), i < off →
    (setBytes buf off bs)[i]? = buf[i]? := by
  induction bs with
  | nil => intro buf off i _; rfl
  | cons b t ih =>
    intro buf off i h
    simp only [setBytes]
    rw [ih (buf.set off b) (off + 1) i (by omega)]
    exact List.getElem?_set_ne (by omega)

theorem getElem?_setBytes_ge (bs : Bytes) : ∀ (buf : Bytes) (off i : Nat),
    off + bs.length ≤ i → (setBytes buf off bs)[i]? = buf[i]? := by
  induction bs with
  | nil => intro buf off i _; rfl
  | cons b t ih =>
    intro buf off i h
    rw [List.length_cons] at h
    simp only [setBytes]
    rw [ih (buf.set off b) (off + 1) i (by omega)]
    exact List.getElem?_set_ne (by omega)

theorem getElem?_setBytes_in (bs : Bytes) : ∀ (buf : Bytes) (off j : Nat),
    j < bs.length → off + bs.length ≤ buf.length →
    (setBytes buf off bs)[off + j]? = bs[j]? := by
  induction bs with
  | nil => intro buf off j hj _; exact absurd hj (by simp)
  | cons b t ih =>
    intro buf off j hj hb
    rw [List.length_cons] at hj hb
    simp only [setBytes]
    cases j with
    | zero =>
      rw [getElem?_setBytes_lt t _ _ _ (by omega), Nat.add_zero,
        List.getElem?_set_eq_of_lt b (by omega)]
      simp
    | succ j' =>
      have harr : off + (j' + 1) = (off + 1) + j' := by omega
      rw [harr, ih (buf.set off b) (off + 1) j' (by omega) (by rw [List.length_set]; omega)]
      simp

theorem length_extractBytes (buf : Bytes) (off len : Nat) :
    (extractBytes buf off len).length = min len (buf.length - off) := by
  simp [extractBytes]

theorem getElem?_extractBytes (buf : Bytes) (off len j : Nat) (h : j < len) :
    (extractBytes buf off len)[j]? = buf[off + j]? := by
  unfold extractBytes
  rw [List.getElem?_take_of_lt h, List.getElem?_drop]

theorem extractBytes_setBytes (bs buf : Bytes) (off : Nat)
    (h : off + bs.length ≤ buf.length) :
    extractBytes (setBytes buf off bs) off bs.length = bs := by
  apply List.ext_getElem?
  intro n
  by_cases hn : n < bs.length
  · rw [getElem?_extractBytes _ _ _ _ hn, getElem?_setBytes_in bs buf off n hn h]
  · rw [List.getElem?_eq_none (by rw [length_extractBytes, length_setBytes]; omega),
      List.getElem?_eq_none (by omega)]

theorem extractBytes_setBytes_untouched (bs buf : Bytes) (off k : Nat) (hk : k ≤ off) :
    extractBytes (setBytes buf off bs) 0 k = extractBytes buf 0 k := by
  apply List.ext_getElem?
  intro n
  by_cases hn : n < k
  · rw [getElem?_extractBytes _ _ _ _ hn, getElem?_extractBytes _ _ _ _ hn, Nat.zero_add,
      getElem?_setBytes_lt bs buf off n (by omega)]
  · rw [List.getElem?_eq_none (by rw [length_extractBytes, length_setBytes]; omega),
      List.getElem?_eq_none (by rw [length_extractBytes]; omega)]

theorem getBuf_append_lt (s : Store) (b : Bytes) (i : Nat) (h : i < s.length) :
    getBuf (s ++ [b]) i = getBuf s i := by
  unfold getBuf
  rw [List.getD_eq_getElem?_getD, List.getD_eq_getElem?_getD, List.getElem?_append_left h]

theorem getBuf_append_self (s : Store) (b : Bytes) :
    getBuf (s ++ [b]) s.length = b := by
  unfold getBuf
  rw [List.getD_eq_getElem?_getD, List.getElem?_append_right (Nat.le_refl _)]
  simp

theorem getBuf_setBuf_self (s : Store) (i : Nat) (b : Bytes) (h : i < s.length) :
    getBuf (setBuf s i b) i = b := by
  unfold getBuf setBuf
  rw [List.getD_eq_getElem?_getD, List.getElem?_set_eq_of_lt b h]
  rfl

theorem getBuf_setBuf_ne (s : Store) (i j : Nat) (b : Bytes) (h : i ≠ j) :
    getBuf (setBuf s i b) j = getBuf s j := by
  unfold getBuf setBuf
  rw [List.getD_eq_getElem?_getD, List.getD_eq_getElem?_getD, List.getElem?_set_ne h]

theorem getBuf_out (s : Store) (i : Nat) (h : s.length ≤ i) : getBuf s i = [] :=
  List.getD_eq_default _ _ h

/-! ### Encoding lemmas -/

theorem length_encLE (w : Nat) : ∀ v, (encLE w v).length = w := by
  induction w with
  | zero => intro v; rfl
  | succ w ih => intro v; simp [encLE, ih]

theorem length_encBytes (w v : Nat) (le : Bool) : (encBytes w v le).length = w := by
  cases le <;> simp [encBytes, length_encLE]

theorem mod_mul_256 (v B : Nat) (hB : 0 < B) :
    v % (256 * B) = v % 256 + 256 * (v / 256 % B) := by
  have h1 : v / 256 % B < B := Nat.mod_lt _ hB
  conv_lhs => rw [← Nat.div_add_mod v 256]
  rw [Nat.add_mod, Nat.mul_mod_mul_left,
    Nat.mod_eq_of_lt (by omega : v % 256 < 256 * B),
    Nat.mod_eq_of_lt (by omega : 256 * (v / 256 % B) + v % 256 < 256 * B)]
  omega

theorem decLE_encLE (w : Nat) : ∀ v, decLE (encLE w v) = v % 256 ^ w := by
  induction w with
  | zero => intro v; simp [encLE, decLE, Nat.mod_one]
  | succ w ih =>
    intro v
    have hpos : 0 < (256 : Nat) ^ w := Nat.pos_pow_of_pos w (by omega)
    simp only [encLE, decLE, ih]
    rw [← mod_mul_256 v (256 ^ w) hpos, pow_succ, Nat.mul_comm (256 ^ w) 256]

theorem getUintAt_of_extract (w u : Nat) (le : Bool) (buf : Bytes) (off : Nat)
    (h : extractBytes buf off w = encBytes w u le) :
    getUintAt w le buf off = u % 256 ^ w := by
  unfold getUintAt
  rw [h]
  cases le with
  | false => simp [encBytes, List.reverse_reverse, decLE_encLE]
  | true => simp [encBytes, decLE_encLE]

theorem intBytes_lt (w : Nat) (v : Int) : intBytes w v < 256 ^ w := by
  have hpos : (0 : Int) < (256 : Int) ^ w := by positivity
  have h1 : v % (256 : Int) ^ w < (256 : Int) ^ w := Int.emod_lt_of_pos v hpos
  have h2 : (0 : Int) ≤ v % (256 : Int) ^ w := Int.emod_nonneg v (by positivity)
  have hcast : (((256 : Nat) ^ w : Nat) : Int) = (256 : Int) ^ w := by push_cast; ring
  unfold intBytes
  omega

theorem intBytes_mod_self (w : Nat) (v : Int) : intBytes w v % 256 ^ w = intBytes w v :=
  Nat.mod_eq_of_lt (intBytes_lt w v)

/-! ### Characterizations of the writer path -/

theorem checkSize_grow (step : Nat) (s : Store) (c : Cursor)
    (h : c.offset + step > (getBuf s c.buffer).length) :
    checkSize step s c =
      (s ++ [getBuf s c.buffer ++
        List.replicate (c.offset + step - (getBuf s c.buffer).length) 0],
       { c with buffer := s.length }) := by
  unfold checkSize
  rw [if_pos h]

theorem checkSize_stay (step : Nat) (s : Store) (c : Cursor)
    (h : ¬c.offset + step > (getBuf s c.buffer).length) :
    checkSize step s c = (s, c) := by
  unfold checkSize
  rw [if_neg h]

theorem increment_eq (step : Nat) (c : Cursor) :
    increment step c =
      (step, { c with offset := c.offset + step, size := max c.size (c.offset + step) }) := by
  have h : (if c.offset + step > c.size then c.offset + step else c.size)
      = max c.size (c.offset + step) := by
    rw [Nat.max_def]
    split <;> split <;> omega
  unfold increment
  simp only [h]

theorem writeCoerced_ok_eq (w : Nat) (jv : JSVal) (s : Store) (c : Cursor) :
    writeCoerced w (.ok jv) s c =
      (setBuf (checkSize w s c).1 (checkSize w s c).2.buffer
        (setBytes (getBuf (checkSize w s c).1 (checkSize w s c).2.buffer)
          (checkSize w s c).2.offset
          (encBytes w (intBytes w (storeNum jv)) (checkSize w s c).2.isLittleEndian)),
       (increment w (checkSize w s c).2).2, .ok (increment w (checkSize w s c).2).1) := rfl

/-- Contract of the shared writer path on a successfully coerced value:
capacity grows exactly to cover `offset + w` when needed, the value's byte
image lands at the old offset under the cursor's byte order, the offset
advances by `w`, the size rises to the new offset, and `w` is returned. -/
theorem writeCoerced_ok_spec (w : Nat) (hw : 0 < w) (jv : JSVal) (s : Store) (c : Cursor) :
    (getBuf (writeCoerced w (.ok jv) s c).1 (writeCoerced w (.ok jv) s c).2.1.buffer).length
      = max (getBuf s c.buffer).length (c.offset + w) ∧
    extractBytes (getBuf (writeCoerced w (.ok jv) s c).1 (writeCoerced w (.ok jv) s c).2.1.buffer)
        c.offset w
      = encBytes w (intBytes w (storeNum jv)) c.isLittleEndian ∧
    (writeCoerced w (.ok jv) s c).2.1.offset = c.offset + w ∧
    (writeCoerced w (.ok jv) s c).2.1.size = max c.size (c.offset + w) ∧
    (writeCoerced w (.ok jv) s c).2.1.isLittleEndian = c.isLittleEndian ∧
    (writeCoerced w (.ok jv) s c).2.2 = .ok w := by
  have hlen : (encBytes w (intBytes w (storeNum jv)) c.isLittleEndian).length = w :=
    length_encBytes w _ c.isLittleEndian
  rw [writeCoerced_ok_eq, increment_eq]
  by_cases hgrow : c.offset + w > (getBuf s c.buffer).length
  · rw [checkSize_grow w s c hgrow]
    have hmem : s.length < (s ++ [getBuf s c.buffer ++
        List.replicate (c.offset + w - (getBuf s c.buffer).length) 0]).length := by
      rw [List.length_append]; simp
    have hdst : (getBuf (s ++ [getBuf s c.buffer ++
          List.replicate (c.offset + w - (getBuf s c.buffer).length) 0]) s.length).length
        = c.offset + w := by
      rw [getBuf_append_self, List.length_append, List.length_replicate]
      omega
    have hb : c.offset + (encBytes w (intBytes w (storeNum jv)) c.isLittleEndian).length
        ≤ (getBuf (s ++ [getBuf s c.buffer ++
            List.replicate (c.offset + w - (getBuf s c.buffer).length) 0]) s.length).length := by
      rw [hlen, hdst]
    simp only [getBuf_setBuf_self _ _ _ hmem]
    refine ⟨?_, ?_, trivial, trivial, trivial, trivial⟩
    · rw [length_setBytes, hdst]
      omega
    · have he := extractBytes_setBytes
        (encBytes w (intBytes w (storeNum jv)) c.isLittleEndian)
        (getBuf (s ++ [getBuf s c.buffer ++
          List.replicate (c.offset + w - (getBuf s c.buffer).length) 0]) s.length)
        c.offset hb
      rw [hlen] at he
      exact he
  · rw [checkSize_stay w s c hgrow]
    have hfit : c.offset + w ≤ (getBuf s c.buffer).length := by omega
    have hpos : 0 < (getBuf s c.buffer).length := by omega
    have hc : c.buffer < s.length := by
      by_contra h
      rw [getBuf_out s c.buffer (Nat.le_of_not_lt h)] at hpos
      simp at hpos
    have hb : c.offset + (encBytes w (intBytes w (storeNum jv)) c.isLittleEndian).length
        ≤ (getBuf s c.buffer).length := by
      rw [hlen]
      omega
    simp only [getBuf_setBuf_self _ _ _ hc]
    refine ⟨?_, ?_, trivial, trivial, trivial, trivial⟩
    · rw [length_setBytes]
      omega
    · have he := extractBytes_setBytes
        (encBytes w (intBytes w (storeNum jv)) c.isLittleEndian)
        (getBuf s c.buffer) c.offset hb
      rw [hlen] at he
      exact he

/-- Reading back at the written offset recovers the stored `w`-byte value. -/
theorem writeCoerced_ok_read (w : Nat) (hw : 0 < w) (jv : JSVal) (s : Store) (c : Cursor) :
    getUintAt w c.isLittleEndian
        (getBuf (writeCoerced w (.ok jv) s c).1 (writeCoerced w (.ok jv) s c).2.1.buffer)
        c.offset
      = intBytes w (storeNum jv) := by
  have h := (writeCoerced_ok_spec w hw jv s c).2.1
  rw [getUintAt_of_extract w _ _ _ _ h, intBytes_mod_self]

theorem writeCoerced_error_eq (w : Nat) (e : String) (s : Store) (c : Cursor) :
    writeCoerced w (.error e) s c = ((checkSize w s c).1, (checkSize w s c).2, .error e) := rfl

/-- A write touches no existing buffer other than the one its cursor owns. -/
theorem writeCoerced_getBuf_other (w : Nat) (t : Except String JSVal) (s : Store) (c : Cursor)
    (i : Nat) (hi : i < s.length) (hne : i ≠ c.buffer) :
    getBuf (writeCoerced w t s c).1 i = getBuf s i := by
  cases t with
  | error e =>
    rw [writeCoerced_error_eq]
    by_cases hgrow : c.offset + w > (getBuf s c.buffer).length
    · rw [checkSize_grow w s c hgrow]
      exact getBuf_append_lt s _ i hi
    · rw [checkSize_stay w s c hgrow]
  | ok jv =>
    rw [writeCoerced_ok_eq]
    by_cases hgrow : c.offset + w > (getBuf s c.buffer).length
    · rw [checkSize_grow w s c hgrow]
      exact (getBuf_setBuf_ne _ _ _ _ (by omega : s.length ≠ i)).trans
        (getBuf_append_lt s _ i hi)
    · rw [checkSize_stay w s c hgrow]
      exact getBuf_setBuf_ne _ _ _ _ hne.symm

/-! ### Dispatch lemmas -/

theorem width_pos (t : NumTy) : 0 < width t := by
  cases t <;> simp [width]

theorem toInt_num (v : Int) : toInt (.num v) = .ok (.num v) := rfl

theorem toFloat_num (v : Int) : toFloat (.num v) = .ok (.num v) := rfl

theorem writeNum_eq (t : NumTy) (v : Int) :
    writeNum t v = writeCoerced (width t) (.ok (.num v)) := by
  cases t <;> rfl

theorem reverse_short (l : Bytes) (h : l.length ≤ 1) : l.reverse = l := by
  match l with
  | [] => rfl
  | [a] => rfl
  | a :: b :: t => simp at h

theorem getUint8At_eq (le : Bool) (buf : Bytes) (off : Nat) :
    decLE (extractBytes buf off 1) = getUintAt 1 le buf off := by
  unfold getUintAt
  cases le with
  | true => rfl
  | false =>
    simp only [Bool.false_eq_true, if_false]
    rw [reverse_short (extractBytes buf off 1) (by rw [length_extractBytes]; omega)]

/-! ### Claim C2 -/

/-- C2: every fixed-width numeric write operation (the eight writers
`writeUint8` .. `writeDouble`, dispatched through `writeNum`), given a numeric
input, ensures the buffer has capacity for `offset + width` bytes (growing it
exactly to fit when needed), encodes the value's byte image at the old offset
under the configured byte order, advances the offset by exactly the width,
updates `size` to `max size offset`, and returns the number of bytes
written. -/
theorem c2_write_contract (t : NumTy) (v : Int) (s : Store) (c : Cursor) :
    (getBuf (writeNum t v s c).1 (writeNum t v s c).2.1.buffer).length
      = max (getBuf s c.buffer).length (c.offset + width t) ∧
    extractBytes (getBuf (writeNum t v s c).1 (writeNum t v s c).2.1.buffer) c.offset (width t)
      = encBytes (width t) (intBytes (width t) v) c.isLittleEndian ∧
    (writeNum t v s c).2.1.offset = c.offset + width t ∧
    (writeNum t v s c).2.1.size = max c.size (c.offset + width t) ∧
    (writeNum t v s c).2.2 = .ok (width t) := by
  rw [writeNum_eq]
  have h := writeCoerced_ok_spec (width t) (width_pos t) (.num v) s c
  exact ⟨h.1, h.2.1, h.2.2.1, h.2.2.2.1, h.2.2.2.2.2⟩

/-! ### Claim C10 -/

/-- C10: constructing a cursor from a null or absent buffer argument yields a
valid cursor over a zero-length buffer (capacity 0, offset 0, size 0, both for
the base constructor and for the write mode), and every subsequent numeric
write still succeeds by growing the buffer to exactly the written width. -/
theorem c10_null_constructor (le : Bool) (s : Store) (t : NumTy) (v : Int) :
    getBuf (mkBufferStream .nullish le s).1 (mkBufferStream .nullish le s).2.buffer = [] ∧
    (mkBufferStream .nullish le s).2.offset = 0 ∧
    (mkBufferStream .nullish le s).2.size = 0 ∧
    getBuf (mkWriteBufferStream .nullish le s).1
      (mkWriteBufferStream .nullish le s).2.buffer = [] ∧
    (mkWriteBufferStream .nullish le s).2.offset = 0 ∧
    (mkWriteBufferStream .nullish le s).2.size = 0 ∧
    (writeNum t v (mkWriteBufferStream .nullish le s).1
      (mkWriteBufferStream .nullish le s).2).2.2 = .ok (width t) ∧
    (getBuf (writeNum t v (mkWriteBufferStream .nullish le s).1
        (mkWriteBufferStream .nullish le s).2).1
      (writeNum t v (mkWriteBufferStream .nullish le s).1
        (mkWriteBufferStream .nullish le s).2).2.1.buffer).length = width t := by
  have hbase : getBuf (s ++ [([] : Bytes)]) s.length = [] := getBuf_append_self s []
  have h := writeCoerced_ok_spec (width t) (width_pos t) (.num v) (s ++ [[]])
    ⟨s.length, 0, 0, le⟩
  refine ⟨hbase, rfl, rfl, hbase, rfl, rfl, ?_, ?_⟩
  · rw [writeNum_eq]
    exact h.2.2.2.2.2
  · rw [writeNum_eq]
    have h1 := h.1
    rw [hbase] at h1
    simpa using h1

/-! ### Claim C1 -/

/-- C1 (amended): the write-then-read round trip at offset 0 returns the
written value exactly, under either byte order, for the seven numeric types
whose read operation exists in the source (`u8`, `u16`, `u32`, `i16`, `i32`
and the two float bit patterns).  The source has no signed 8-bit read
operation; its only 8-bit read (`readUint8`) returns the unsigned
reinterpretation `v % 256` of a written signed byte. -/
theorem c1_roundtrip_amended :
    (∀ (t : NumTy) (le : Bool) (v : Int), inRange t v → t ≠ .i8 → roundTrip t le v = v) ∧
    (∀ (le : Bool) (v : Int), inRange .i8 v → roundTrip .i8 le v = v % 256) := by
  have base : ∀ (t : NumTy) (le : Bool) (v : Int),
      roundTrip t le v = (readNum t
        (writeCoerced (width t) (.ok (.num v)) [[]] ⟨0, 0, 0, le⟩).1
        (reset (writeCoerced (width t) (.ok (.num v)) [[]] ⟨0, 0, 0, le⟩).2.1)).1 := by
    intro t le v
    unfold roundTrip
    rw [writeNum_eq]
    simp only [mkWriteBufferStream, mkBufferStream, ctorBytes, List.nil_append, List.length_nil]
  constructor
  · intro t le v h hne
    cases t
    case i8 => exact absurd rfl hne
    case u8 =>
      rw [base, inRange] at *
      simp only [readNum, readUint8, reset, width]
      have hread := writeCoerced_ok_read 1 (by omega) (.num v) [[]] ⟨0, 0, 0, le⟩
      rw [getUint8At_eq (Cursor.mk 0 0 0 le).isLittleEndian, hread]
      show ((intBytes 1 v : Nat) : Int) = v
      unfold intBytes
      rw [show ((256 : Int) ^ 1) = 256 by norm_num]
      omega
    case u16 =>
      rw [base, inRange] at *
      simp only [readNum, readUint16, reset, width]
      have hspec := writeCoerced_ok_spec 2 (by omega) (.num v) [[]] ⟨0, 0, 0, le⟩
      have hread := writeCoerced_ok_read 2 (by omega) (.num v) [[]] ⟨0, 0, 0, le⟩
      rw [hspec.2.2.2.2.1, hread]
      show ((intBytes 2 v : Nat) : Int) = v
      unfold intBytes
      rw [show ((256 : Int) ^ 2) = 65536 by norm_num]
      omega
    case i16 =>
      rw [base, inRange] at *
      simp only [readNum, readInt16, reset, width]
      have hspec := writeCoerced_ok_spec 2 (by omega) (.num v) [[]] ⟨0, 0, 0, le⟩
      have hread := writeCoerced_ok_read 2 (by omega) (.num v) [[]] ⟨0, 0, 0, le⟩
      rw [hspec.2.2.2.2.1, hread]
      show (if intBytes 2 v < 32768 then ((intBytes 2 v : Nat) : Int)
        else ((intBytes 2 v : Nat) : Int) - 65536) = v
      unfold intBytes
      rw [show ((256 : Int) ^ 2) = 65536 by norm_num]
      split <;> omega
    case u32 =>
      rw [base, inRange] at *
      simp only [readNum, readUint32, reset, width]
      have hspec := writeCoerced_ok_spec 4 (by omega) (.num v) [[]] ⟨0, 0, 0, le⟩
      have hread := writeCoerced_ok_read 4 (by omega) (.num v) [[]] ⟨0, 0, 0, le⟩
      rw [hspec.2.2.2.2.1, hread]
      show ((intBytes 4 v : Nat) : Int) = v
      unfold intBytes
      rw [show ((256 : Int) ^ 4) = 4294967296 by norm_num]
      omega
    case i32 =>
      rw [base, inRange] at *
      simp only [readNum, readInt32, reset, width]
      have hspec := writeCoerced_ok_spec 4 (by omega) (.num v) [[]] ⟨0, 0, 0, le⟩
      have hread := writeCoerced_ok_read 4 (by omega) (.num v) [[]] ⟨0, 0, 0, le⟩
      rw [hspec.2.2.2.2.1, hread]
      show (if intBytes 4 v < 2147483648 then ((intBytes 4 v : Nat) : Int)
        else ((intBytes 4 v : Nat) : Int) - 4294967296) = v
      unfold intBytes
      rw [show ((256 : Int) ^ 4) = 4294967296 by norm_num]
      split <;> omega
    case f32 =>
      rw [base, inRange] at *
      simp only [readNum, readFloat, reset, width]
      have hspec := writeCoerced_ok_spec 4 (by omega) (.num v) [[]] ⟨0, 0, 0, le⟩
      have hread := writeCoerced_ok_read 4 (by omega) (.num v) [[]] ⟨0, 0, 0, le⟩
      rw [hspec.2.2.2.2.1, hread]
      show ((intBytes 4 v : Nat) : Int) = v
      unfold intBytes
      rw [show ((256 : Int) ^ 4) = 4294967296 by norm_num]
      omega
    case f64 =>
      rw [base, inRange] at *
      simp only [readNum, readDouble, reset, width]
      have hspec := writeCoerced_ok_spec 8 (by omega) (.num v) [[]] ⟨0, 0, 0, le⟩
      have hread := writeCoerced_ok_read 8 (by omega) (.num v) [[]] ⟨0, 0, 0, le⟩
      rw [hspec.2.2.2.2.1, hread]
      show ((intBytes 8 v : Nat) : Int) = v
      unfold intBytes
      rw [show ((256 : Int) ^ 8) = 18446744073709551616 by norm_num]
      omega
  · intro le v h
    rw [base]
    simp only [readNum, readUint8, reset, width]
    have hread := writeCoerced_ok_read 1 (by omega) (.num v) [[]] ⟨0, 0, 0, le⟩
    rw [getUint8At_eq (Cursor.mk 0 0 0 le).isLittleEndian, hread]
    show ((intBytes 1 v : Nat) : Int) = v % 256
    unfold intBytes
    rw [show ((256 : Int) ^ 1) = 256 by norm_num]
    omega

/-- C1 counterexample: for the signed 8-bit type the claim fails as stated;
the source's only 8-bit read after `writeInt8 (-1)` yields 255, not -1. -/
theorem c1_i8_counterexample :
    roundTrip .i8 false (-1) = 255 ∧ ((255 : Int) ≠ -1) := by
  constructor
  · rfl
  · decide

/-- C1 witness: the amended round trip at concrete inputs. -/
theorem c1_roundtrip_witness :
    roundTrip .u32 true 305419896 = 305419896 ∧ roundTrip .i8 false (-1) = (-1 : Int) % 256 := by
  constructor
  · exact c1_roundtrip_amended.1 .u32 true 305419896 (by rw [inRange]; omega) (by decide)
  · exact c1_roundtrip_amended.2 false (-1) (by rw [inRange]; omega)

/-! ### Claim C3 -/

/-- C3: whenever a write triggers a reallocation (`offset + step` exceeds the
capacity), the new buffer is the old one extended with zero fill, so every
previously written byte is preserved at its original position; and the
concrete 0xAA/0xBB growth scenario reads back `[0xAA, 0xBB]`. -/
theorem c3_growth_preserves (s : Store) (c : Cursor) (step : Nat)
    (h : c.offset + step > (getBuf s c.buffer).length) :
    getBuf (checkSize step s c).1 (checkSize step s c).2.buffer
      = getBuf s c.buffer
        ++ List.replicate (c.offset + step - (getBuf s c.buffer).length) 0 ∧
    (∀ i, i < (getBuf s c.buffer).length →
      (getBuf (checkSize step s c).1 (checkSize step s c).2.buffer)[i]?
        = (getBuf s c.buffer)[i]?) ∧
    growScenario = [170, 187] := by
  have hA : getBuf (checkSize step s c).1 (checkSize step s c).2.buffer
      = getBuf s c.buffer
        ++ List.replicate (c.offset + step - (getBuf s c.buffer).length) 0 := by
    rw [checkSize_grow step s c h]
    exact getBuf_append_self s _
  refine ⟨hA, ?_, rfl⟩
  intro i hi
  rw [hA]
  exact List.getElem?_append_left hi

/-- C3 witness: the growth preservation at a concrete state (capacity 1,
offset 1, writing 2 more bytes). -/
theorem c3_growth_witness :
    getBuf (checkSize 2 [[5]] ⟨0, 1, 1, false⟩).1 (checkSize 2 [[5]] ⟨0, 1, 1, false⟩).2.buffer
      = [5, 0, 0] ∧ growScenario = [170, 187] := by
  have h := c3_growth_preserves [[5]] ⟨0, 1, 1, false⟩ 2 (by decide)
  refine ⟨?_, h.2.2⟩
  rw [h.1]
  rfl

/-! ### Claim C8 -/

/-- C8: the source intends `readUint16Array(n)` to return the `n / 2`
consecutive 16-bit words starting at the offset, but the `while (i++ < sixlen)`
post-increment writes each word to slot `i + 1`: element 0 keeps its 0
initialisation, the words land shifted one slot right, and the final word is
read (the offset does advance by `n`) but dropped.  On the buffer
`[0x12, 0x34, 0x56, 0x78]` under big-endian order the call returns
`[0, 0x1234]` where the claim expects `[0x1234, 0x5678]`. -/
theorem c8_readUint16Array_bug :
    (readUint16Array 4 [[18, 52, 86, 120]] ⟨0, 0, 4, false⟩).1 = [0, 4660] ∧
    (readUint16Array 4 [[18, 52, 86, 120]] ⟨0, 0, 4, false⟩).2.offset = 4 ∧
    [(0 : Nat), 4660] ≠ [4660, 22136] := by
  exact ⟨rfl, rfl, by decide⟩

/-! ### Claim C9 -/

theorem jsSlice_eq_extract (buf : Bytes) (st en : Nat) :
    jsSlice buf st en = extractBytes buf st (en - st) := by
  unfold jsSlice extractBytes
  exact List.drop_take en st buf

theorem extract_zero_take (buf : Bytes) (k : Nat) :
    extractBytes buf 0 k = buf.take k := by
  unfold extractBytes
  rw [List.drop_zero]

/-- C9 (amended): `getBuffer(start, end)` returns a copy of the region
`[start, end)` whenever `end ≥ 1` (with `start ≤ end ≤ capacity`); but when
both arguments are 0 — or absent — the JS falsy test makes it return the
default region `[0, size)` instead. -/
theorem c9_getBuffer_amended :
    (∀ (s : Store) (c : Cursor) (st en : Nat), 1 ≤ en → st ≤ en →
      en ≤ (getBuf s c.buffer).length →
      getBuffer s c (some st) (some en) = extractBytes (getBuf s c.buffer) st (en - st) ∧
      (getBuffer s c (some st) (some en)).length = en - st) ∧
    (∀ (s : Store) (c : Cursor),
      getBuffer s c none none = (getBuf s c.buffer).take c.size ∧
      getBuffer s c (some 0) (some 0) = (getBuf s c.buffer).take c.size) := by
  constructor
  · intro s c st en h1 hse hcap
    have hcond : ((some st).getD 0 == 0 && ((some en).getD 0 == 0)) = false := by
      simp only [Option.getD_some]
      cases en with
      | zero => omega
      | succ m => simp
    have hmain : getBuffer s c (some st) (some en)
        = extractBytes (getBuf s c.buffer) st (en - st) := by
      unfold getBuffer
      rw [hcond]
      simp only [Bool.false_eq_true, if_false, Option.getD_some]
      exact jsSlice_eq_extract _ st en
    refine ⟨hmain, ?_⟩
    rw [hmain, length_extractBytes]
    omega
  · intro s c
    constructor
    · unfold getBuffer
      simp only [Option.getD_none, Option.getD_some, beq_self_eq_true, Bool.and_self, if_true]
      exact extract_zero_take (getBuf s c.buffer) c.size ▸ extract_zero_take _ _ ▸ rfl
    · unfold getBuffer
      simp only [Option.getD_none, Option.getD_some, beq_self_eq_true, Bool.and_self, if_true]
      exact extract_zero_take (getBuf s c.buffer) c.size ▸ extract_zero_take _ _ ▸ rfl

/-- C9 counterexample: on a cursor of size 2 over `[5, 6]`, `getBuffer(0, 0)`
returns the 2-byte default region, not the empty region `[0, 0)` the claim
requires. -/
theorem c9_counterexample :
    getBuffer [[5, 6]] ⟨0, 0, 2, false⟩ (some 0) (some 0) = [5, 6] ∧
    ([5, 6] : Bytes).length ≠ 0 := by
  exact ⟨rfl, by decide⟩

/-- C9 witness: the amended region read at concrete bounds. -/
theorem c9_getBuffer_witness :
    getBuffer [[1, 2, 3, 4]] ⟨0, 0, 4, false⟩ (some 1) (some 3) = [2, 3] := by
  have h := (c9_getBuffer_amended.1 [[1, 2, 3, 4]] ⟨0, 0, 4, false⟩ 1 3
    (by omega) (by omega) (by decide)).1
  rw [h]
  rfl

/-! ### Claim C7 -/

theorem decLE_extract_one (buf : Bytes) (j : Nat) :
    decLE (extractBytes buf j 1) = buf.getD j 0 := by
  rcases h : buf[j]? with _ | b
  · have hj : buf.length ≤ j := by
      by_contra hc
      rw [List.getElem?_eq_getElem (by omega)] at h
      exact Option.noConfusion h
    have hnil : extractBytes buf j 1 = [] := by
      have hl := length_extractBytes buf j 1
      refine List.length_eq_zero.mp ?_
      omega
    rw [hnil, List.getD_eq_getElem?_getD, h]
    rfl
  · have hj : j < buf.length := by
      by_contra hc
      rw [List.getElem?_eq_none (by omega)] at h
      exact Option.noConfusion h
    have hone : extractBytes buf j 1 = [b] := by
      have hlen : (extractBytes buf j 1).length = 1 := by
        rw [length_extractBytes]
        omega
      obtain ⟨a, ha⟩ := List.length_eq_one.mp hlen
      have := getElem?_extractBytes buf j 1 0 (by omega)
      rw [ha, Nat.add_zero, h] at this
      simp at this
      rw [ha, this]
    rw [hone, List.getD_eq_getElem?_getD, h]
    show b + 256 * 0 = b
    omega

theorem readHexLoop_spec (s : Store) : ∀ (n : Nat) (c : Cursor) (acc : String),
    (readHexLoop s n c acc).1 = acc ++ hexOfBytes (getBuf s c.buffer) c.offset n ∧
    (readHexLoop s n c acc).2.offset = c.offset + n ∧
    (readHexLoop s n c acc).2.buffer = c.buffer := by
  intro n
  induction n with
  | zero =>
    intro c acc
    refine ⟨?_, rfl, rfl⟩
    show (acc : String) = acc ++ ""
    rw [String.append_empty]
  | succ m ih =>
    intro c acc
    have hstep : readHexLoop s (m + 1) c acc
        = readHexLoop s m (increment 1 c).2
            (acc ++ hexStr (decLE (extractBytes (getBuf s c.buffer) c.offset 1))) := rfl
    obtain ⟨h1, h2, h3⟩ := ih (increment 1 c).2
      (acc ++ hexStr (decLE (extractBytes (getBuf s c.buffer) c.offset 1)))
    rw [hstep]
    refine ⟨?_, ?_, ?_⟩
    · rw [h1]
      show acc ++ hexStr (decLE (extractBytes (getBuf s c.buffer) c.offset 1))
          ++ hexOfBytes (getBuf s c.buffer) (c.offset + 1) m
        = acc ++ (hexStr ((getBuf s c.buffer).getD c.offset 0)
          ++ hexOfBytes (getBuf s c.buffer) (c.offset + 1) m)
      rw [decLE_extract_one, String.append_assoc]
    · rw [h2]
      show c.offset + 1 + m = c.offset + (m + 1)
      omega
    · exact h3

/-- C7 (amended): `readHex(n)` reads the next `n` bytes, advances the offset
by exactly `n`, and returns the concatenation of each byte rendered by the JS
`toString(16)` — lowercase hex *without* zero padding, so a byte below 0x10
contributes one character, not two; the spec's concrete instance holds:
writing hex "1a2b" then reading 2 bytes back as hex yields "1a2b", because
both bytes are ≥ 0x10. -/
theorem c7_readhex_amended :
    (∀ (n : Nat) (s : Store) (c : Cursor),
      (readHex n s c).1 = hexOfBytes (getBuf s c.buffer) c.offset n ∧
      (readHex n s c).2.offset = c.offset + n) ∧
    hexRoundTrip = "1a2b" := by
  constructor
  · intro n s c
    obtain ⟨h1, h2, _⟩ := readHexLoop_spec s n c ""
    have e : readHex n s c = readHexLoop s n c "" := rfl
    rw [e]
    exact ⟨by rw [h1, String.empty_append], h2⟩
  · rfl

/-- C7 counterexample: the byte 0x0a renders as the single character "a", not
as a two-digit "0a", so a byte does not always contribute two characters. -/
theorem c7_counterexample :
    (readHex 1 [[10]] ⟨0, 0, 1, false⟩).1 = "a" ∧ ("a" : String).length ≠ 2 := by
  exact ⟨rfl, by decide⟩

/-! ### Claim C5 -/

theorem checkSize_cursor_fields (step : Nat) (s : Store) (c : Cursor) :
    (checkSize step s c).2.offset = c.offset ∧ (checkSize step s c).2.size = c.size ∧
    (checkSize step s c).2.isLittleEndian = c.isLittleEndian := by
  by_cases h : c.offset + step > (getBuf s c.buffer).length
  · rw [checkSize_grow step s c h]
    exact ⟨rfl, rfl, rfl⟩
  · rw [checkSize_stay step s c h]
    exact ⟨rfl, rfl, rfl⟩

theorem toInt_guard_error (val : JSVal) (h : jsNumber? val = none) :
    toInt val = .error ("Not a number: " ++ jsDisplay val) := by
  unfold toInt
  rw [if_pos (by rw [h]; rfl)]

theorem toFloat_guard_error (val : JSVal) (h : jsNumber? val = none) :
    toFloat val = .error ("Not a number: " ++ jsDisplay val) := by
  unfold toFloat
  rw [if_pos (by rw [h]; rfl)]

theorem toInt_str_parsed (s0 : String) (h : strNumber? s0 ≠ none) :
    toInt (.str s0) = .ok (match parseInt? s0 with | some n => .num n | none => .nan) := by
  unfold toInt
  rw [if_neg (by simp only [jsNumber?, Option.isNone_iff_eq_none]; exact h)]
  rcases hp : parseInt? s0 with _ | n <;> simp [hp]

/-- C5 (amended): the rejection test of the numeric writers is the JS `isNaN`
guard, not "non-numeric input".  (a) A numeric input is encoded as-is and the
write returns its width.  (b) A string whose `Number` coercion is defined is
parsed with `parseInt` and the parsed value encoded — with a string such as
`""` whose `Number` coercion is 0 but whose `parseInt` is NaN encoding byte
value 0.  (c) An input whose `Number` coercion is NaN (`undefined`, `NaN`, a
non-numeric string) makes the write fail with the `Not a number` error, with
`offset` and `size` unchanged — but the capacity check has already run, so
the buffer may have grown.  (d) `null` and booleans are *not* rejected: they
pass the `isNaN` guard and are encoded as 0 and 0/1.  (e) The float writers
apply the same guard through `toFloat`. -/
theorem c5_coercion_amended :
    (∀ (w : Nat) (v : Int) (s : Store) (c : Cursor), 0 < w →
      (writeIntWidth w (.num v) s c).2.2 = .ok w ∧
      extractBytes (getBuf (writeIntWidth w (.num v) s c).1
          (writeIntWidth w (.num v) s c).2.1.buffer) c.offset w
        = encBytes w (intBytes w v) c.isLittleEndian) ∧
    (∀ (w : Nat) (s0 : String) (s : Store) (c : Cursor), 0 < w → strNumber? s0 ≠ none →
      (writeIntWidth w (.str s0) s c).2.2 = .ok w ∧
      extractBytes (getBuf (writeIntWidth w (.str s0) s c).1
          (writeIntWidth w (.str s0) s c).2.1.buffer) c.offset w
        = encBytes w (intBytes w ((parseInt? s0).getD 0)) c.isLittleEndian) ∧
    (∀ (w : Nat) (val : JSVal) (s : Store) (c : Cursor), jsNumber? val = none →
      (writeIntWidth w val s c).2.2 = .error ("Not a number: " ++ jsDisplay val) ∧
      (writeIntWidth w val s c).2.1.offset = c.offset ∧
      (writeIntWidth w val s c).2.1.size = c.size) ∧
    (∀ (w : Nat) (s : Store) (c : Cursor) (b : Bool), 0 < w →
      (writeIntWidth w .nullv s c).2.2 = .ok w ∧
      extractBytes (getBuf (writeIntWidth w .nullv s c).1
          (writeIntWidth w .nullv s c).2.1.buffer) c.offset w
        = encBytes w (intBytes w 0) c.isLittleEndian ∧
      (writeIntWidth w (.boolv b) s c).2.2 = .ok w ∧
      extractBytes (getBuf (writeIntWidth w (.boolv b) s c).1
          (writeIntWidth w (.boolv b) s c).2.1.buffer) c.offset w
        = encBytes w (intBytes w (if b then 1 else 0)) c.isLittleEndian) ∧
    (∀ (w : Nat) (v : Int) (s : Store) (c : Cursor), 0 < w →
      (writeFloatWidth w (.num v) s c).2.2 = .ok w) ∧
    (∀ (w : Nat) (val : JSVal) (s : Store) (c : Cursor), jsNumber? val = none →
      (writeFloatWidth w val s c).2.2 = .error ("Not a number: " ++ jsDisplay val) ∧
      (writeFloatWidth w val s c).2.1.offset = c.offset ∧
      (writeFloatWidth w val s c).2.1.size = c.size) := by
  refine ⟨?_, ?_, ?_, ?_, ?_, ?_⟩
  · intro w v s c hw
    have h := writeCoerced_ok_spec w hw (.num v) s c
    exact ⟨h.2.2.2.2.2, h.2.1⟩
  · intro w s0 s c hw hnum
    have he : writeIntWidth w (.str s0)
        = writeCoerced w (.ok (match parseInt? s0 with | some n => .num n | none => .nan)) := by
      unfold writeIntWidth
      rw [toInt_str_parsed s0 hnum]
    rcases hp : parseInt? s0 with _ | n
    · rw [hp] at he
      rw [he]
      have h := writeCoerced_ok_spec w hw .nan s c
      exact ⟨h.2.2.2.2.2, h.2.1⟩
    · rw [hp] at he
      rw [he]
      have h := writeCoerced_ok_spec w hw (.num n) s c
      exact ⟨h.2.2.2.2.2, h.2.1⟩
  · intro w val s c hnan
    have he : writeIntWidth w val
        = writeCoerced w (.error ("Not a number: " ++ jsDisplay val)) := by
      unfold writeIntWidth
      rw [toInt_guard_error val hnan]
    rw [he, writeCoerced_error_eq]
    exact ⟨rfl, (checkSize_cursor_fields w s c).1, (checkSize_cursor_fields w s c).2.1⟩
  · intro w s c b hw
    have h0 := writeCoerced_ok_spec w hw .nullv s c
    have hb := writeCoerced_ok_spec w hw (.boolv b) s c
    exact ⟨h0.2.2.2.2.2, h0.2.1, hb.2.2.2.2.2, hb.2.1⟩
  · intro w v s c hw
    exact (writeCoerced_ok_spec w hw (.num v) s c).2.2.2.2.2
  · intro w val s c hnan
    have he : writeFloatWidth w val
        = writeCoerced w (.error ("Not a number: " ++ jsDisplay val)) := by
      unfold writeFloatWidth
      rw [toFloat_guard_error val hnan]
    rw [he, writeCoerced_error_eq]
    exact ⟨rfl, (checkSize_cursor_fields w s c).1, (checkSize_cursor_fields w s c).2.1⟩

/-- C5 counterexample: `writeUint8(null)` and `writeUint8("")` are non-numeric
inputs, yet the write succeeds (returning 1) instead of failing: `null` passes
the `isNaN` guard and stores byte 0; `""` coerces to 0 under `Number` so the
guard passes, and its NaN `parseInt` result also stores byte 0. -/
theorem c5_counterexample :
    (writeUint8 .nullv [[]] ⟨0, 0, 0, false⟩).2.2 = .ok 1 ∧
    getBuf (writeUint8 .nullv [[]] ⟨0, 0, 0, false⟩).1
      (writeUint8 .nullv [[]] ⟨0, 0, 0, false⟩).2.1.buffer = [0] ∧
    (writeUint8 (.str "") [[]] ⟨0, 0, 0, false⟩).2.2 = .ok 1 := by
  exact ⟨rfl, rfl, rfl⟩

/-- C5 witness: the amended coercion behavior at concrete inputs. -/
theorem c5_coercion_witness :
    (writeIntWidth 1 (.num 7) [[]] (⟨0, 0, 0, false⟩ : Cursor)).2.2 = .ok 1 ∧
    (writeIntWidth 2 (.str "12") [[]] (⟨0, 0, 0, false⟩ : Cursor)).2.2 = .ok 2 ∧
    (writeIntWidth 1 .undef [[]] (⟨0, 0, 0, false⟩ : Cursor)).2.2
      = .error "Not a number: undefined" ∧
    (writeFloatWidth 4 (.str "abc") [[]] (⟨0, 0, 0, false⟩ : Cursor)).2.2
      = .error "Not a number: abc" := by
  refine ⟨?_, ?_, ?_, ?_⟩
  · exact (c5_coercion_amended.1 1 7 [[]] ⟨0, 0, 0, false⟩ (by omega)).1
  · exact (c5_coercion_amended.2.1 2 "12" [[]] ⟨0, 0, 0, false⟩ (by omega) (by decide)).1
  · exact (c5_coercion_amended.2.2.1 1 .undef [[]] ⟨0, 0, 0, false⟩ rfl).1
  · exact (c5_coercion_amended.2.2.2.2.2 4 (.str "abc") [[]] ⟨0, 0, 0, false⟩ (by decide)).1

/-! ### Claim C4 -/

theorem length_jsSlice (buf : Bytes) (st en : Nat) :
    (jsSlice buf st en).length = min en buf.length - st := by
  simp [jsSlice]

theorem jsSlice_shift (buf : Bytes) (off n : Nat) :
    jsSlice buf off (off + n) = extractBytes buf off n := by
  rw [jsSlice_eq_extract]
  congr 1
  omega

/-- C4: `more(length)` fails with the buffer-underrun error exactly when
`offset + length` exceeds the capacity, leaving store and cursor untouched;
otherwise it allocates a fresh buffer holding a copy of the bytes
`[offset, offset + length)`, returns a read cursor on it with offset 0 and
size `length`, and advances the parent by `length`.  The sub-cursor and the
parent reference different buffers, so a subsequent numeric write through
either cursor leaves the other one's bytes unchanged. -/
theorem c4_more_spec :
    (∀ (n : Nat) (s : Store) (c : Cursor), c.offset + n > (getBuf s c.buffer).length →
      more n s c = (s, c, .error "Request more than currently allocated buffer")) ∧
    (∀ (n : Nat) (s : Store) (c : Cursor), c.offset + n ≤ (getBuf s c.buffer).length →
      more n s c = (s ++ [extractBytes (getBuf s c.buffer) c.offset n],
        (increment n c).2, .ok ⟨s.length, 0, n, false⟩) ∧
      (increment n c).2.offset = c.offset + n ∧
      (increment n c).2.buffer = c.buffer ∧
      getBuf (s ++ [extractBytes (getBuf s c.buffer) c.offset n]) s.length
        = extractBytes (getBuf s c.buffer) c.offset n) ∧
    (∀ (n : Nat) (s : Store) (c : Cursor) (s2 : Store) (c2 sub : Cursor)
        (t : NumTy) (v : Int),
      more n s c = (s2, c2, .ok sub) → c.buffer < s.length →
      sub.buffer ≠ c2.buffer ∧
      getBuf (writeNum t v s2 sub).1 c2.buffer = getBuf s2 c2.buffer ∧
      getBuf (writeNum t v s2 c2).1 sub.buffer = getBuf s2 sub.buffer) := by
  have herr : ∀ (n : Nat) (s : Store) (c : Cursor),
      c.offset + n > (getBuf s c.buffer).length →
      more n s c = (s, c, .error "Request more than currently allocated buffer") := by
    intro n s c h
    unfold more
    rw [if_pos h]
  have hok : ∀ (n : Nat) (s : Store) (c : Cursor),
      c.offset + n ≤ (getBuf s c.buffer).length →
      more n s c = (s ++ [extractBytes (getBuf s c.buffer) c.offset n],
        (increment n c).2, .ok ⟨s.length, 0, n, false⟩) := by
    intro n s c h
    unfold more
    rw [if_neg (by omega)]
    rw [jsSlice_shift]
    have hlen : (extractBytes (getBuf s c.buffer) c.offset n).length = n := by
      rw [length_extractBytes]
      omega
    simp only [hlen]
  refine ⟨herr, ?_, ?_⟩
  · intro n s c h
    exact ⟨hok n s c h, rfl, rfl, getBuf_append_self s _⟩
  · intro n s c s2 c2 sub t v hm hwf
    by_cases h : c.offset + n > (getBuf s c.buffer).length
    · rw [herr n s c h] at hm
      simp only [Prod.mk.injEq] at hm
      exact absurd hm.2.2 (by simp)
    · rw [hok n s c (by omega)] at hm
      simp only [Prod.mk.injEq, Except.ok.injEq] at hm
      obtain ⟨hs2, hc2, hsub⟩ := hm
      subst hs2 hc2 hsub
      have hslen : (s ++ [extractBytes (getBuf s c.buffer) c.offset n]).length
          = s.length + 1 := by
        simp
      refine ⟨?_, ?_, ?_⟩
      · show (s.length : Nat) ≠ ((increment n c).2).buffer
        show (s.length : Nat) ≠ c.buffer
        omega
      · rw [writeNum_eq]
        exact writeCoerced_getBuf_other (width t) _ _ _ c.buffer (by omega) (by
          show c.buffer ≠ (⟨s.length, 0, n, false⟩ : Cursor).buffer
          show c.buffer ≠ s.length
          omega)
      · rw [writeNum_eq]
        exact writeCoerced_getBuf_other (width t) _ _ _ s.length (by omega) (by
          show (s.length : Nat) ≠ ((increment n c).2).buffer
          show (s.length : Nat) ≠ c.buffer
          omega)

/-- C4 witness: underrun error, carve-out and isolation at concrete states. -/
theorem c4_more_witness :
    more 5 [[1, 2]] ⟨0, 0, 2, false⟩
      = ([[1, 2]], ⟨0, 0, 2, false⟩, .error "Request more than currently allocated buffer") ∧
    more 4 [[1, 2, 3, 4, 5, 6, 7, 8]] ⟨0, 0, 8, false⟩
      = ([[1, 2, 3, 4, 5, 6, 7, 8], [1, 2, 3, 4]],
         ⟨0, 4, 8, false⟩, .ok ⟨1, 0, 4, false⟩) ∧
    getBuf (writeNum .u8 170 [[1, 2, 3, 4, 5, 6, 7, 8], [1, 2, 3, 4]] ⟨1, 0, 4, false⟩).1 0
      = [1, 2, 3, 4, 5, 6, 7, 8] := by
  refine ⟨c4_more_spec.1 5 [[1, 2]] ⟨0, 0, 2, false⟩ (by decide), ?_, ?_⟩
  · have h := (c4_more_spec.2.1 4 [[1, 2, 3, 4, 5, 6, 7, 8]] ⟨0, 0, 8, false⟩ (by decide)).1
    rw [h]
    rfl
  · have h := (c4_more_spec.2.2 4 [[1, 2, 3, 4, 5, 6, 7, 8]] ⟨0, 0, 8, false⟩
      [[1, 2, 3, 4, 5, 6, 7, 8], [1, 2, 3, 4]] ⟨0, 4, 8, false⟩ ⟨1, 0, 4, false⟩
      .u8 170 (by rfl) (by decide)).2.1
    rw [h]
    rfl

/-! ### Claim C6 -/

theorem jsSlice_zero (buf : Bytes) (en : Nat) : jsSlice buf 0 en = buf.take en := by
  unfold jsSlice
  rw [List.drop_zero]

/-- `stream.getBuffer(0, stream.size)` always yields the logical content
`[0, size)`: when `size = 0` the falsy default branch coincides with it. -/
theorem getBuffer_zero_size (s : Store) (o : Cursor) :
    getBuffer s o (some 0) (some o.size) = (getBuf s o.buffer).take o.size := by
  unfold getBuffer
  by_cases h0 : o.size = 0
  · rw [if_pos (by simp [h0])]
    rw [jsSlice_zero]
  · rw [if_neg (by simp [h0])]
    simp only [Option.getD_some]
    rw [jsSlice_zero]

theorem concat_grow_eq (s : Store) (c other : Cursor)
    (h : (other.size : Int) > ((getBuf s c.buffer).length : Int) - (c.offset : Int)) :
    concat s c other =
      (s ++ [setBytes (setBytes (List.replicate (c.offset + other.size) 0) 0
          (getBuffer s c (some 0) (some c.offset))) c.offset
          (getBuffer s other (some 0) (some other.size))],
       { c with buffer := s.length, offset := c.offset + other.size,
                size := c.offset + other.size },
       (setBytes (setBytes (List.replicate (c.offset + other.size) 0) 0
          (getBuffer s c (some 0) (some c.offset))) c.offset
          (getBuffer s other (some 0) (some other.size))).length) := by
  simp only [concat]
  rw [if_pos h]

theorem concat_stay_eq (s : Store) (c other : Cursor)
    (h : ¬(other.size : Int) > ((getBuf s c.buffer).length : Int) - (c.offset : Int)) :
    concat s c other =
      (setBuf s c.buffer (setBytes (getBuf s c.buffer) c.offset
          (getBuffer s other (some 0) (some other.size))),
       { c with offset := c.offset + other.size, size := c.offset + other.size },
       (setBytes (getBuf s c.buffer) c.offset
          (getBuffer s other (some 0) (some other.size))).length) := by
  simp only [concat]
  rw [if_neg h]

/-- C6 (amended): `concat(other)` writes `other`'s logical content
`[0, other.size)` at the current offset (growing the buffer exactly to
`offset + other.size` when the remaining room is insufficient, and preserving
this cursor's bytes `[0, offset)`), advances `offset` by `other.size` — but it
then *sets* `size` to the new offset rather than advancing it, so `size` only
grows by the appended length when `offset = size` held before the call. -/
theorem c6_concat_amended (s : Store) (c other : Cursor)
    (hc : c.buffer < s.length)
    (hoff : c.offset ≤ (getBuf s c.buffer).length)
    (hsz : other.size ≤ (getBuf s other.buffer).length) :
    (concat s c other).2.1.offset = c.offset + other.size ∧
    (concat s c other).2.1.size = c.offset + other.size ∧
    (getBuf (concat s c other).1 (concat s c other).2.1.buffer).length
      = max (getBuf s c.buffer).length (c.offset + other.size) ∧
    extractBytes (getBuf (concat s c other).1 (concat s c other).2.1.buffer) 0 c.offset
      = extractBytes (getBuf s c.buffer) 0 c.offset ∧
    extractBytes (getBuf (concat s c other).1 (concat s c other).2.1.buffer)
        c.offset other.size
      = (getBuf s other.buffer).take other.size := by
  have hpart2 : getBuffer s other (some 0) (some other.size)
      = (getBuf s other.buffer).take other.size := getBuffer_zero_size s other
  have hp2len : ((getBuf s other.buffer).take other.size).length = other.size := by
    rw [List.length_take]
    omega
  by_cases hg : (other.size : Int) > ((getBuf s c.buffer).length : Int) - (c.offset : Int)
  · have hglt : (getBuf s c.buffer).length < c.offset + other.size := by
      by_contra hcon
      push_neg at hg
      omega
    rw [concat_grow_eq s c other hg]
    have hY : (setBytes (List.replicate (c.offset + other.size) 0) 0
        (getBuffer s c (some 0) (some c.offset))).length = c.offset + other.size := by
      rw [length_setBytes, List.length_replicate]
    have hnew : getBuf (s ++ [setBytes (setBytes (List.replicate (c.offset + other.size) 0) 0
          (getBuffer s c (some 0) (some c.offset))) c.offset
          (getBuffer s other (some 0) (some other.size))]) s.length
        = setBytes (setBytes (List.replicate (c.offset + other.size) 0) 0
          (getBuffer s c (some 0) (some c.offset))) c.offset
          (getBuffer s other (some 0) (some other.size)) := getBuf_append_self s _
    refine ⟨rfl, rfl, ?_, ?_, ?_⟩
    · rw [hnew, length_setBytes, hY]
      omega
    · rw [hnew]
      by_cases hoz : c.offset = 0
      · rw [hoz]
        rfl
      · have hpart1 : getBuffer s c (some 0) (some c.offset)
            = (getBuf s c.buffer).take c.offset := by
          unfold getBuffer
          rw [if_neg (by simp [hoz])]
          simp only [Option.getD_some]
          rw [jsSlice_zero]
        have hp1len : ((getBuf s c.buffer).take c.offset).length = c.offset := by
          rw [List.length_take]
          omega
        rw [extractBytes_setBytes_untouched _ _ c.offset c.offset (Nat.le_refl _)]
        rw [hpart1]
        have he := extractBytes_setBytes ((getBuf s c.buffer).take c.offset)
          (List.replicate (c.offset + other.size) 0) 0
          (by rw [hp1len, List.length_replicate]; omega)
        rw [hp1len] at he
        rw [he, extract_zero_take]
    · rw [hnew, hpart2]
      have he := extractBytes_setBytes ((getBuf s other.buffer).take other.size)
        (setBytes (List.replicate (c.offset + other.size) 0) 0
          (getBuffer s c (some 0) (some c.offset))) c.offset
        (by rw [hp2len, hY])
      rw [hp2len] at he
      exact he
  · have hle : c.offset + other.size ≤ (getBuf s c.buffer).length := by
      push_neg at hg
      omega
    rw [concat_stay_eq s c other hg]
    have hset : getBuf (setBuf s c.buffer (setBytes (getBuf s c.buffer) c.offset
          (getBuffer s other (some 0) (some other.size)))) c.buffer
        = setBytes (getBuf s c.buffer) c.offset
          (getBuffer s other (some 0) (some other.size)) := getBuf_setBuf_self s _ _ hc
    refine ⟨rfl, rfl, ?_, ?_, ?_⟩
    · rw [hset, length_setBytes]
      omega
    · rw [hset]
      exact extractBytes_setBytes_untouched _ _ c.offset c.offset (Nat.le_refl _)
    · rw [hset, hpart2]
      have he := extractBytes_setBytes ((getBuf s other.buffer).take other.size)
        (getBuf s c.buffer) c.offset (by rw [hp2len]; omega)
      rw [hp2len] at he
      exact he

/-- C6 counterexample: after writing 5 bytes (size 5) and rewinding to offset
0, concatenating a 3-byte cursor sets `size` to 3 — the claim's "advances size
by the appended length" would require 5 + 3. -/
theorem c6_counterexample :
    concatShrink.2.1.size = 3 ∧ (3 : Nat) ≠ 5 + 3 := by
  exact ⟨rfl, by decide⟩

/-- C6 witness: an in-bounds growth concat at concrete cursors. -/
theorem c6_concat_witness :
    (concat [[1, 2, 0, 0], [7, 8, 9]] ⟨0, 2, 2, false⟩ ⟨1, 0, 3, false⟩).2.1.offset = 2 + 3 ∧
    extractBytes (getBuf (concat [[1, 2, 0, 0], [7, 8, 9]] ⟨0, 2, 2, false⟩
        ⟨1, 0, 3, false⟩).1
        (concat [[1, 2, 0, 0], [7, 8, 9]] ⟨0, 2, 2, false⟩ ⟨1, 0, 3, false⟩).2.1.buffer)
      2 3 = [7, 8, 9] := by
  have h := c6_concat_amended [[1, 2, 0, 0], [7, 8, 9]] ⟨0, 2, 2, false⟩ ⟨1, 0, 3, false⟩
    (by decide) (by decide) (by decide)
  refine ⟨h.1, ?_⟩
  rw [show ((⟨0, 2, 2, false⟩ : Cursor).offset) = 2 from rfl] at h
  rw [show ((⟨1, 0, 3, false⟩ : Cursor).size) = 3 from rfl] at h
  rw [h.2.2.2.2]
  rfl

end BufferStreamModel
